import Mathlib

/-!
# goauth: a terminal TOTP dashboard

A shallow embedding of `main.go` and a verification of its table layout, its
countdown and its start-up gating.

Conventions of the embedding:

* a Go `string` is its sequence of bytes (`GoString`), `len` is the byte length;
* the wall clock is an explicit argument: every `time.Now()` of the program is one
  reading, in Unix seconds, a signed 64-bit integer;
* `drawTable` returns the text it prints, line by line; the colour attributes of
  `fatih/color` (non-printing escape sequences) and the footer are left out;
* widths and lengths are natural numbers: they start at 4 or more and only grow.
-/

namespace GoAuth

/-! ## Go strings and `unicode/utf8` -/

/-- A Go string: an immutable sequence of bytes, each in `0..255`. -/
abbrev GoString := List Nat

/-- UTF-8 encoding of one code point, as the Go compiler encodes a string literal. -/
def utf8EncodeRune (r : Nat) : GoString :=
  if r < 0x80 then [r]
  else if r < 0x800 then [0xC0 + r / 64, 0x80 + r % 64]
  else if r < 0x10000 then [0xE0 + r / 4096, 0x80 + r / 64 % 64, 0x80 + r % 64]
  else [0xF0 + r / 262144, 0x80 + r / 4096 % 64, 0x80 + r / 64 % 64, 0x80 + r % 64]

/-- The bytes of a Go string literal. -/
def utf8 (s : String) : GoString :=
  s.data.flatMap (fun c => utf8EncodeRune c.toNat)

/-- Size announced by a leading byte (`first[c] & 7` of `unicode/utf8`);
0 stands for the table entry `xx` (a byte that cannot start a sequence). -/
def leadSize (c : Nat) : Nat :=
  if c < 0x80 then 1
  else if 0xC2 ≤ c ∧ c ≤ 0xDF then 2
  else if 0xE0 ≤ c ∧ c ≤ 0xEF then 3
  else if 0xF0 ≤ c ∧ c ≤ 0xF4 then 4
  else 0

/-- Lower end of the accept range of the second byte (`acceptRanges[x>>4].lo`). -/
def acceptLo (c : Nat) : Nat :=
  if c = 0xE0 then 0xA0 else if c = 0xF0 then 0x90 else 0x80

/-- Upper end of the accept range of the second byte (`acceptRanges[x>>4].hi`). -/
def acceptHi (c : Nat) : Nat :=
  if c = 0xED then 0x9F else if c = 0xF4 then 0x8F else 0xBF

/-- Continuation byte: `locb ≤ c ≤ hicb`. -/
def isCont (c : Nat) : Prop := 0x80 ≤ c ∧ c ≤ 0xBF

instance (c : Nat) : Decidable (isCont c) := by
  unfold isCont
  infer_instance

/-- Number of bytes one iteration of `utf8.RuneCountInString` consumes when the
string from the current index on is `c :: rest`. -/
def runeSize (c : Nat) (rest : GoString) : Nat :=
  let size := leadSize c
  if size < 2 then 1
  else if rest.length + 1 < size then 1
  else if ¬ (acceptLo c ≤ rest.getD 0 0 ∧ rest.getD 0 0 ≤ acceptHi c) then 1
  else if size = 2 then 2
  else if ¬ isCont (rest.getD 1 0) then 1
  else if size = 3 then 3
  else if ¬ isCont (rest.getD 2 0) then 1
  else 4

/-- The loop of `utf8.RuneCountInString`; `skip` bytes still belong to the rune
counted last. -/
def runeCountAux : Nat → GoString → Nat
  | _, [] => 0
  | skip + 1, _ :: rest => runeCountAux skip rest
  | 0, c :: rest => 1 + runeCountAux (runeSize c rest - 1) rest

/-- Go's `utf8.RuneCountInString`: every invalid byte counts as one rune. -/
def runeCount (s : GoString) : Nat := runeCountAux 0 s

/-- A text that does not start with a continuation byte (the empty text included). -/
def startsClean (b : GoString) : Prop := ∀ h ∈ b.head?, ¬ isCont h

/-! ## `fmt` verbs used by the program -/

/-- The text of `fmt.Sprintf("%d", n)`: decimal digits, with a minus sign when negative. -/
def sprintfD (n : Int) : GoString :=
  if n < 0 then 45 :: (Nat.toDigits 10 n.natAbs).map Char.toNat
  else (Nat.toDigits 10 n.natAbs).map Char.toNat

/-- The verb `%-*s` (and the padding step of `%-*d`), the width `wid` being an argument
of the call. `fmt` refuses a width above 1,000,000 (`tooLarge` in `intFromArg`): it
prints `%!(BADWIDTH)` and then the text without padding. Otherwise it writes the text,
then `wid - utf8.RuneCountInString(s)` spaces when that number is positive. -/
def padRight (wid : Nat) (s : GoString) : GoString :=
  if 1000000 < wid then utf8 "%!(BADWIDTH)" ++ s
  else s ++ List.replicate (wid - runeCount s) 32

/-- Go's `strings.Repeat`. -/
def stringsRepeat (s : GoString) (count : Nat) : GoString :=
  (List.replicate count s).flatten

/-! ## Data model -/

/-- The `Account` struct. -/
structure Account where
  ID : Int
  Name : GoString
  Username : GoString
  Site : GoString
  Secret : GoString
  deriving DecidableEq, Repr

/-- The `Config` struct. -/
structure Config where
  Accounts : List Account
  deriving DecidableEq, Repr

/-! ## Countdown -/

/-- Two's-complement wrap-around of a signed 64-bit integer. -/
def wrapInt64 (x : Int) : Int := (x + 2 ^ 63) % 2 ^ 64 - 2 ^ 63

/-- A value of type `int64`. -/
def isInt64 (x : Int) : Prop := -2 ^ 63 ≤ x ∧ x < 2 ^ 63

instance (x : Int) : Decidable (isInt64 x) := by
  unfold isInt64
  infer_instance

/-- The function `getRemainingTime`, with `now = time.Now().Unix()`; Go's `%`
truncates toward zero (`Int.tmod`). -/
def getRemainingTime (now : Int) : Int := 30 - Int.tmod now 30

/-! ## The TOTP generator (`github.com/pquerna/otp/totp`, not part of the source tree) -/

/-- Error of the TOTP generator. -/
inductive OtpError where
  | invalidSecret
  deriving DecidableEq, Repr

/-- Value of a symbol of the base32 alphabet `A`..`Z`, `2`..`7` (RFC 4648). -/
def base32Value (c : Nat) : Option Nat :=
  if 65 ≤ c ∧ c ≤ 90 then some (c - 65)
  else if 50 ≤ c ∧ c ≤ 55 then some (c - 24)
  else none

/-- The 40-bit number of a quantum of eight 5-bit values, most significant first. -/
def quantumBits (vs : List Nat) : Nat := vs.foldl (fun n v => n * 32 + v) 0

/-- The five bytes of a 40-bit number, most significant first. -/
def quantumBytes (n : Nat) : List Nat :=
  [n / 2 ^ 32 % 256, n / 2 ^ 24 % 256, n / 2 ^ 16 % 256, n / 2 ^ 8 % 256, n % 256]

/-- Decoding of one 8-symbol quantum; `last` allows `=` padding after 2, 4, 5 or 7
symbols. -/
def decodeQuantum (last : Bool) (q : List Nat) : Option (List Nat) :=
  let symbols := q.takeWhile (fun c => c ≠ 61)
  let padding := q.drop symbols.length
  let d := symbols.length
  if padding.all (fun c => c = 61) ∧ (d = 8 ∨ (last = true ∧ (d = 7 ∨ d = 5 ∨ d = 4 ∨ d = 2))) then
    (symbols.mapM base32Value).map
      (fun vs => (quantumBytes (quantumBits (vs ++ List.replicate (8 - d) 0))).take (d * 5 / 8))
  else none

/-- Modelled from the spec: base32 decoding of the shared secret ("Returns
`InvalidSecretError` when the secret cannot be decoded as base32"); the decoder
belongs to the Go standard library and is not in the source tree. Standard
alphabet with padding, RFC 4648 section 6. -/
def base32Decode : GoString → Option (List Nat)
  | [] => some []
  | c0 :: c1 :: c2 :: c3 :: c4 :: c5 :: c6 :: c7 :: rest =>
    match rest with
    | [] => decodeQuantum true [c0, c1, c2, c3, c4, c5, c6, c7]
    | _ :: _ =>
      match decodeQuantum false [c0, c1, c2, c3, c4, c5, c6, c7], base32Decode rest with
      | some b, some r => some (b ++ r)
      | _, _ => none
  | _ => none

/-- Rotation to the left of a 32-bit word. -/
def rotl32 (x n : Nat) : Nat := ((x <<< n) ||| (x >>> (32 - n))) % 2 ^ 32

/-- Big-endian bytes of a number, `k` bytes wide. -/
def bigEndian : Nat → Nat → List Nat
  | 0, _ => []
  | k + 1, n => n / 256 ^ k % 256 :: bigEndian k n

/-- The number of a big-endian byte sequence. -/
def ofBigEndian (bs : List Nat) : Nat := bs.foldl (fun n b => n * 256 + b) 0

/-- SHA-1 padding (FIPS 180-4, 5.1.1). -/
def sha1Pad (msg : List Nat) : List Nat :=
  msg ++ [0x80] ++ List.replicate ((119 - msg.length % 64) % 64) 0 ++ bigEndian 8 (8 * msg.length)

/-- SHA-1 message schedule: extends the 16 words of a block by `n` words. -/
def sha1Schedule : Nat → List Nat → List Nat
  | 0, w => w
  | n + 1, w =>
    let i := w.length
    sha1Schedule n
      (w ++ [rotl32 (w.getD (i - 3) 0 ^^^ w.getD (i - 8) 0 ^^^ w.getD (i - 14) 0 ^^^ w.getD (i - 16) 0) 1])

/-- SHA-1 round function. -/
def sha1F (t b c d : Nat) : Nat :=
  if t < 20 then (b &&& c) ||| ((b ^^^ 0xFFFFFFFF) &&& d)
  else if t < 40 then b ^^^ c ^^^ d
  else if t < 60 then (b &&& c) ||| (b &&& d) ||| (c &&& d)
  else b ^^^ c ^^^ d

/-- SHA-1 round constant. -/
def sha1K (t : Nat) : Nat :=
  if t < 20 then 0x5A827999
  else if t < 40 then 0x6ED9EBA1
  else if t < 60 then 0x8F1BBCDC
  else 0xCA62C1D6

/-- The five working words of SHA-1. -/
structure Sha1State where
  a : Nat
  b : Nat
  c : Nat
  d : Nat
  e : Nat
  deriving DecidableEq, Repr

/-- One SHA-1 round. -/
def sha1Round (w : List Nat) (s : Sha1State) (t : Nat) : Sha1State :=
  { a := (rotl32 s.a 5 + sha1F t s.b s.c s.d + s.e + sha1K t + w.getD t 0) % 2 ^ 32
    b := s.a
    c := rotl32 s.b 30
    d := s.c
    e := s.d }

/-- Compression of one 64-byte block. -/
def sha1Block (h : Sha1State) (block : List Nat) : Sha1State :=
  let w := sha1Schedule 64 ((List.range 16).map (fun i => ofBigEndian ((block.drop (4 * i)).take 4)))
  let s := (List.range 80).foldl (sha1Round w) h
  { a := (h.a + s.a) % 2 ^ 32
    b := (h.b + s.b) % 2 ^ 32
    c := (h.c + s.c) % 2 ^ 32
    d := (h.d + s.d) % 2 ^ 32
    e := (h.e + s.e) % 2 ^ 32 }

/-- Compression of `n` consecutive blocks. -/
def sha1Blocks : Nat → List Nat → Sha1State → Sha1State
  | 0, _, h => h
  | n + 1, bytes, h => sha1Blocks n (bytes.drop 64) (sha1Block h (bytes.take 64))

/-- SHA-1 digest (20 bytes). -/
def sha1 (msg : List Nat) : List Nat :=
  let padded := sha1Pad msg
  let h := sha1Blocks (padded.length / 64) padded
    { a := 0x67452301, b := 0xEFCDAB89, c := 0x98BADCFE, d := 0x10325476, e := 0xC3D2E1F0 }
  bigEndian 4 h.a ++ bigEndian 4 h.b ++ bigEndian 4 h.c ++ bigEndian 4 h.d ++ bigEndian 4 h.e

/-- HMAC-SHA1 (RFC 2104). -/
def hmacSha1 (key msg : List Nat) : List Nat :=
  let k := if key.length > 64 then sha1 key else key
  let k := k ++ List.replicate (64 - k.length) 0
  sha1 (k.map (fun b => b ^^^ 0x5c) ++ sha1 (k.map (fun b => b ^^^ 0x36) ++ msg))

/-- Dynamic truncation of RFC 4226: 31 bits taken at the offset the last nibble gives. -/
def dynamicTruncate (sum : List Nat) : Nat :=
  let offset := sum.getD (sum.length - 1) 0 % 16
  (sum.getD offset 0 % 128) * 2 ^ 24 + sum.getD (offset + 1) 0 * 2 ^ 16
    + sum.getD (offset + 2) 0 * 2 ^ 8 + sum.getD (offset + 3) 0

/-- Six decimal digits, zero-padded (`%06d`). -/
def sixDigits (v : Nat) : GoString :=
  [48 + v / 100000 % 10, 48 + v / 10000 % 10, 48 + v / 1000 % 10,
   48 + v / 100 % 10, 48 + v / 10 % 10, 48 + v % 10]

/-- The counter of a time: `floor(unixTime / 30)`. -/
def timeCounter (unix : Int) : Int := Int.fdiv unix 30

/-- The HOTP code of a decoded key and a counter (an unsigned 64-bit value, big-endian). -/
def hotp (key : List Nat) (counter : Int) : GoString :=
  sixDigits (dynamicTruncate (hmacSha1 key (bigEndian 8 (counter % 2 ^ 64).toNat)) % 1000000)

/-- Modelled from the spec: `totp.GenerateCode(secret, t)` of the library
`github.com/pquerna/otp`, which is not in the source tree. Section 4.2: "derive a
counter as `floor(unixTime / 30)`, compute an HMAC-based one-time password
(typically HMAC-SHA1) over the counter using the decoded secret, truncate to 6
decimal digits, zero-padded. Returns `InvalidSecretError` when the secret cannot
be decoded as base32." -/
def totpGenerateCode (secret : GoString) (unix : Int) : Except OtpError GoString :=
  match base32Decode secret with
  | none => .error .invalidSecret
  | some key => .ok (hotp key (timeCounter unix))

/-- A secret that can be decoded as base32. -/
def validSecret (secret : GoString) : Prop := (base32Decode secret).isSome = true

instance (secret : GoString) : Decidable (validSecret secret) := by
  unfold validSecret
  infer_instance

/-- The function `generateTOTP`, with the reading `now` of `time.Now()` as an
argument: the library's code, or the empty string and the library's error. -/
def generateTOTP (secret : GoString) (now : Int) : Except OtpError GoString :=
  match totpGenerateCode secret now with
  | .error err => .error err
  | .ok code => .ok code

/-! ## The table renderer -/

/-- The four column widths `drawTable` computes from the accounts. -/
structure Widths where
  idLen : Nat
  maxNameLen : Nat
  maxUserLen : Nat
  maxSiteLen : Nat
  deriving DecidableEq, Repr

/-- The widths before the loop over the accounts. -/
def initialWidths : Widths :=
  { idLen := 4, maxNameLen := 6, maxUserLen := 10, maxSiteLen := 6 }

/-- One iteration of the width loop of `drawTable`. -/
def widthStep (w : Widths) (acc : Account) : Widths :=
  { idLen :=
      if (sprintfD acc.ID).length > w.idLen - 2 then (sprintfD acc.ID).length + 2 else w.idLen
    maxNameLen := if acc.Name.length > w.maxNameLen then acc.Name.length else w.maxNameLen
    maxUserLen := if acc.Username.length > w.maxUserLen then acc.Username.length else w.maxUserLen
    maxSiteLen := if acc.Site.length > w.maxSiteLen then acc.Site.length else w.maxSiteLen }

/-- The statements "Add padding" of `drawTable`. -/
def addPadding (w : Widths) : Widths :=
  { idLen := w.idLen + 2
    maxNameLen := w.maxNameLen + 2
    maxUserLen := w.maxUserLen + 2
    maxSiteLen := w.maxSiteLen + 2 }

/-- The column widths of `drawTable`: the loop, then the padding. -/
def columnWidths (accounts : List Account) : Widths :=
  addPadding (accounts.foldl widthStep initialWidths)

/-- The constant `codeLen`. -/
def codeLen : Nat := 10

/-- The constant `timeLen`. -/
def timeLen : Nat := 8

/-- The variable `totalWidth` of `drawTable`. -/
def totalWidth (w : Widths) : Nat :=
  w.idLen + w.maxNameLen + w.maxUserLen + w.maxSiteLen + codeLen + timeLen + 7

/-- A border line: `strings.Repeat("═", totalWidth)`. -/
def borderLine (w : Widths) : GoString := stringsRepeat (utf8 "═") (totalWidth w)

/-- The pieces of text the header statements print, in order. -/
def headerPieces (w : Widths) : List GoString :=
  [ utf8 "║ ", padRight w.idLen (utf8 "ID"),
    utf8 "│ ", padRight w.maxNameLen (utf8 "Name"),
    utf8 "│ ", padRight w.maxUserLen (utf8 "Username"),
    utf8 "│ ", padRight w.maxSiteLen (utf8 "Site"),
    utf8 "│ ", padRight codeLen (utf8 "Code"),
    utf8 "│ ", padRight timeLen (utf8 "Time"),
    utf8 " ║" ]

/-- The header line. -/
def headerRow (w : Widths) : GoString := (headerPieces w).flatten

/-- The code after the statement `if len(code) == 6 { code = code[:3] + " " + code[3:] }`. -/
def spaceCode (code : GoString) : GoString :=
  if code.length = 6 then code.take 3 ++ utf8 " " ++ code.drop 3 else code

/-- The code a row displays, from the result of `generateTOTP`. -/
def displayCode (result : Except OtpError GoString) : GoString :=
  spaceCode (match result with
    | .error _ => utf8 "ERROR"
    | .ok code => code)

/-- The time cell: `fmt.Sprintf("%-ds", remaining)` printed with `" %-*s"`; the three
branches differ in colour only. -/
def timeCell (remaining : Int) : GoString :=
  let timeStr := sprintfD remaining ++ utf8 "s"
  if remaining ≤ 5 then utf8 " " ++ padRight (timeLen - 1) timeStr
  else if remaining ≤ 10 then utf8 " " ++ padRight (timeLen - 1) timeStr
  else utf8 " " ++ padRight (timeLen - 1) timeStr

/-- The pieces of text the statements of one iteration of the row loop print. -/
def rowPieces (w : Widths) (remaining : Int) (acc : Account) (code : GoString) : List GoString :=
  [ utf8 "║ ", padRight w.idLen (sprintfD acc.ID),
    utf8 "│ ", padRight w.maxNameLen acc.Name,
    utf8 "│ ", padRight w.maxUserLen acc.Username,
    utf8 "│ ", padRight w.maxSiteLen acc.Site,
    utf8 "│ ", utf8 " " ++ padRight (codeLen - 1) code,
    utf8 "│ ", timeCell remaining,
    utf8 " ║" ]

/-- One data line. -/
def dataRow (w : Widths) (remaining : Int) (acc : Account) (code : GoString) : GoString :=
  (rowPieces w remaining acc code).flatten

/-- The row loop of `drawTable`: iteration `k` reads the clock inside `generateTOTP`
(`nows k`). -/
def drawRows (w : Widths) (remaining : Int) (nows : Nat → Int) : Nat → List Account → List GoString
  | _, [] => []
  | k, acc :: rest =>
    dataRow w remaining acc (displayCode (generateTOTP acc.Secret (nows k)))
      :: drawRows w remaining nows (k + 1) rest

/-- The lines `drawTable` prints, without their line ends. -/
structure Table where
  top : GoString
  header : GoString
  separator : GoString
  rows : List GoString
  bottom : GoString
  deriving DecidableEq, Repr

/-- The function `drawTable`. `now` is the clock reading of `getRemainingTime`,
`nows k` the one of `generateTOTP` in row `k`. -/
def drawTable (accounts : List Account) (now : Int) (nows : Nat → Int) : Table :=
  let remaining := getRemainingTime now
  let w := columnWidths accounts
  { top := borderLine w
    header := headerRow w
    separator := borderLine w
    rows := drawRows w remaining nows 0 accounts
    bottom := borderLine w }

/-- The length of the longest value of a column among the accounts, 0 when there is
none: the reference the computed widths are compared with. -/
def longest (f : Account → Nat) (accounts : List Account) : Nat :=
  (accounts.map f).foldr max 0

/-- The account of the end-to-end example of the specification. -/
def githubAccount : Account :=
  { ID := 1, Name := utf8 "GitHub", Username := utf8 "alice", Site := utf8 "github.com",
    Secret := utf8 "JBSWY3DPEHPK3PXP" }

/-- An account with a negative ID, a non-ASCII name, an empty user name and a secret
that is not base32. -/
def oddAccount : Account :=
  { ID := -100, Name := utf8 "日本語", Username := [], Site := utf8 "x", Secret := utf8 "nope" }

/-- A name of 999,999 bytes: the letter `a` repeated. -/
def longName : GoString := List.replicate 999999 97

/-- The account of the end-to-end example with the name of 999,999 bytes. -/
def longNameAccount : Account :=
  { ID := 1, Name := longName, Username := utf8 "alice", Site := utf8 "github.com",
    Secret := utf8 "JBSWY3DPEHPK3PXP" }

/-- An account whose columns stay within the largest width `fmt` accepts: the ID is a
64-bit `int`, and Name, Username and Site have fewer than 999,999 bytes. -/
def withinWidthLimit (acc : Account) : Prop :=
  isInt64 acc.ID ∧ acc.Name.length < 999999 ∧ acc.Username.length < 999999 ∧
    acc.Site.length < 999999

instance (acc : Account) : Decidable (withinWidthLimit acc) := by
  unfold withinWidthLimit
  infer_instance

/-! ## The program -/

/-- What `main` does that can be observed: a call of `drawTable`, or the fatal exit
of `log.Fatal` / `log.Fatalf` (which end the process with `os.Exit(1)`). -/
inductive Event where
  | draw (accounts : List Account)
  | exit (status : Nat)
  deriving DecidableEq, Repr

/-- The function `main`, up to the `ticks`-th tick of the ticker. `loaded` is what
`loadConfig` returned: an error, or the configuration. -/
def main {ε : Type} (loaded : Except ε Config) (ticks : Nat) : List Event :=
  match loaded with
  | .error _ => [Event.exit 1]
  | .ok config =>
    if config.Accounts.length = 0 then [Event.exit 1]
    else Event.draw config.Accounts :: List.replicate ticks (Event.draw config.Accounts)

/-! ## Counting runes -/

theorem leadSize_le (c : Nat) : leadSize c ≤ 4 := by
  unfold leadSize
  split_ifs <;> omega

theorem acceptLo_ge (c : Nat) : 0x80 ≤ acceptLo c := by
  unfold acceptLo
  split_ifs <;> omega

theorem acceptHi_le (c : Nat) : acceptHi c ≤ 0xBF := by
  unfold acceptHi
  split_ifs <;> omega

theorem runeSize_le (c : Nat) (rest : GoString) : runeSize c rest ≤ rest.length + 1 := by
  have h4 := leadSize_le c
  unfold runeSize
  simp only
  split_ifs <;> omega

theorem runeSize_append (c : Nat) (rest b : GoString) (hb : startsClean b) :
    runeSize c (rest ++ b) = runeSize c rest := by
  have h4 := leadSize_le c
  have hlo := acceptLo_ge c
  have hhi := acceptHi_le c
  cases b with
  | nil => simp
  | cons h t =>
    have hh : ¬ isCont h := hb h (by simp)
    unfold isCont at hh
    unfold runeSize isCont
    generalize leadSize c = n at h4
    generalize acceptLo c = lo at hlo
    generalize acceptHi c = hi at hhi
    interval_cases n <;>
    rcases rest with _ | ⟨x, _ | ⟨y, _ | ⟨z, rest⟩⟩⟩ <;>
      simp only [List.nil_append, List.cons_append, List.length_cons, List.length_nil,
        List.length_append, List.getD_cons_zero, List.getD_cons_succ, List.getD_nil,
        List.getD_eq_getElem?_getD, List.getElem?_cons_zero, List.getElem?_cons_succ,
        List.getElem?_nil, Option.getD_some, Option.getD_none] <;>
      simp <;> (try omega) <;> (split_ifs <;> omega)
theorem runeCountAux_append (a : GoString) (k : Nat) (b : GoString) (hk : k ≤ a.length)
    (hb : startsClean b) : runeCountAux k (a ++ b) = runeCountAux k a + runeCount b := by
  induction a generalizing k with
  | nil =>
    have hk0 : k = 0 := by simpa using hk
    subst hk0
    simp [runeCount, runeCountAux]
  | cons c rest ih =>
    cases k with
    | zero =>
      have hsz := runeSize_le c rest
      show 1 + runeCountAux (runeSize c (rest ++ b) - 1) (rest ++ b) =
        1 + runeCountAux (runeSize c rest - 1) rest + runeCount b
      rw [runeSize_append c rest b hb, ih (runeSize c rest - 1) (by omega)]
      omega
    | succ k =>
      show runeCountAux k (rest ++ b) = runeCountAux k rest + runeCount b
      exact ih k (by simpa using hk)

theorem runeCount_append (a b : GoString) (hb : startsClean b) :
    runeCount (a ++ b) = runeCount a + runeCount b :=
  runeCountAux_append a 0 b (Nat.zero_le _) hb

theorem runeCountAux_le (s : GoString) (k : Nat) : runeCountAux k s ≤ s.length := by
  induction s generalizing k with
  | nil => simp [runeCountAux]
  | cons c rest ih =>
    cases k with
    | zero =>
      simp only [runeCountAux, List.length_cons]
      have := ih (runeSize c rest - 1)
      omega
    | succ k =>
      simp only [runeCountAux, List.length_cons]
      have := ih k
      omega

theorem runeCount_le_length (s : GoString) : runeCount s ≤ s.length :=
  runeCountAux_le s 0

theorem runeCount_ascii_append (s t : GoString) (hs : ∀ x ∈ s, x < 128) :
    runeCount (s ++ t) = s.length + runeCount t := by
  induction s with
  | nil => simp
  | cons x rest ih =>
    have hx : x < 128 := hs x (by simp)
    have hsz : runeSize x (rest ++ t) = 1 := by
      simp [runeSize, leadSize, hx]
    have ih2 := ih (fun y hy => hs y (by simp [hy]))
    show 1 + runeCountAux (runeSize x (rest ++ t) - 1) (rest ++ t) =
      (x :: rest).length + runeCount t
    rw [hsz]
    simp only [runeCount, List.length_cons] at ih2 ⊢
    rw [ih2]
    omega

theorem runeCount_ascii (s : GoString) (hs : ∀ x ∈ s, x < 128) : runeCount s = s.length := by
  have := runeCount_ascii_append s [] hs
  simpa [runeCount, runeCountAux] using this

theorem startsClean_cons (h : Nat) (t : GoString) (hh : h < 128 ∨ 192 ≤ h) :
    startsClean (h :: t) := by
  intro x hx
  simp only [List.head?_cons, Option.mem_def, Option.some.injEq] at hx
  subst hx
  unfold isCont
  omega

theorem startsClean_nil : startsClean [] := by
  intro x hx
  simp at hx

theorem startsClean_spaces_append (n : Nat) (b : GoString) (hb : startsClean b) :
    startsClean (List.replicate n 32 ++ b) := by
  cases n with
  | zero => simpa using hb
  | succ n =>
    simp only [List.replicate_succ, List.cons_append]
    exact startsClean_cons 32 _ (Or.inl (by decide))

theorem runeCount_padRight_append (wid : Nat) (s b : GoString) (hw : wid ≤ 1000000)
    (hb : startsClean b) :
    runeCount (padRight wid s ++ b) = max wid (runeCount s) + runeCount b := by
  unfold padRight
  rw [if_neg (by omega), List.append_assoc,
    runeCount_append s _ (startsClean_spaces_append _ b hb),
    runeCount_ascii_append _ b (by
      intro x hx
      rw [List.eq_of_mem_replicate hx]
      decide)]
  simp only [List.length_replicate]
  omega

theorem runeCount_padRight (wid : Nat) (s : GoString) (hw : wid ≤ 1000000) :
    runeCount (padRight wid s) = max wid (runeCount s) := by
  have := runeCount_padRight_append wid s [] hw startsClean_nil
  simpa [runeCount, runeCountAux] using this

/-- A width above the limit of `fmt`: the 12 runes of `%!(BADWIDTH)`, then the text. -/
theorem runeCount_badWidth_append (wid : Nat) (s b : GoString) (hw : 1000000 < wid)
    (hb : startsClean b) :
    runeCount (padRight wid s ++ b) = (12 + runeCount s) + runeCount b := by
  unfold padRight
  rw [if_pos hw, List.append_assoc, runeCount_ascii_append _ _ (by decide),
    runeCount_append s b hb]
  have : (utf8 "%!(BADWIDTH)").length = 12 := by decide
  omega

theorem runeCount_left_append (x : GoString) : runeCount (utf8 "║ " ++ x) = 2 + runeCount x := by
  simp [utf8, utf8EncodeRune, runeCount, runeCountAux, runeSize, leadSize, acceptLo, acceptHi, isCont]
  omega

theorem runeCount_bar_append (x : GoString) : runeCount (utf8 "│ " ++ x) = 2 + runeCount x := by
  simp [utf8, utf8EncodeRune, runeCount, runeCountAux, runeSize, leadSize, acceptLo, acceptHi, isCont]
  omega

theorem runeCount_end : runeCount (utf8 " ║") = 2 := by
  decide

theorem digitChar_ascii (d : Nat) (hd : d < 10) : (Nat.digitChar d).toNat < 128 := by
  interval_cases d <;> decide

theorem toDigitsCore_ascii (fuel n : Nat) (ds : List Char) (hds : ∀ c ∈ ds, c.toNat < 128) :
    ∀ c ∈ Nat.toDigitsCore 10 fuel n ds, c.toNat < 128 := by
  induction fuel generalizing n ds with
  | zero => simpa [Nat.toDigitsCore] using hds
  | succ fuel ih =>
    have hcons : ∀ c ∈ Nat.digitChar (n % 10) :: ds, c.toNat < 128 := by
      intro c hc
      rcases List.mem_cons.mp hc with h | h
      · subst h
        exact digitChar_ascii _ (Nat.mod_lt _ (by decide))
      · exact hds c h
    unfold Nat.toDigitsCore
    dsimp only
    split
    · exact hcons
    · exact ih _ _ hcons

/-- The text of `%d` is ASCII. -/
theorem sprintfD_ascii (n : Int) : ∀ x ∈ sprintfD n, x < 128 := by
  have hd : ∀ x ∈ (Nat.toDigits 10 n.natAbs).map Char.toNat, x < 128 := by
    intro x hx
    obtain ⟨c, hc, rfl⟩ := List.mem_map.mp hx
    exact toDigitsCore_ascii _ _ [] (by simp) c hc
  unfold sprintfD
  split
  · intro x hx
    rcases List.mem_cons.mp hx with h | h
    · subst h
      decide
    · exact hd x h
  · exact hd

/-! ## Countdown: range and period -/

/-- Go's `%` on a negative dividend and a non-negative divisor. -/
theorem tmod_of_neg (a b : Int) (ha : a < 0) (hb : 0 ≤ b) :
    Int.tmod a b = -((-a) % b) := by
  obtain ⟨n, rfl⟩ : ∃ n : Nat, a = -((n : Int) + 1) := ⟨(-a - 1).toNat, by omega⟩
  obtain ⟨m, rfl⟩ : ∃ m : Nat, b = (m : Int) := ⟨b.toNat, by omega⟩
  have h : -((n : Int) + 1) = Int.negSucc n := by simp [Int.negSucc_eq]
  rw [h]
  simp only [Int.tmod, Int.neg_negSucc]
  norm_cast

/-- Before the epoch the countdown lies in `[30, 59]`. -/
theorem getRemainingTime_before_epoch (t : Int) (h : t < 0) :
    30 ≤ getRemainingTime t ∧ getRemainingTime t ≤ 59 := by
  unfold getRemainingTime
  rw [tmod_of_neg t 30 h (by decide)]
  omega

/-- C1, as stated, fails one second before the epoch: the countdown is 31. -/
theorem getRemainingTime_range_counterexample :
    isInt64 (-1) ∧ getRemainingTime (-1) = 31 ∧
      ¬ (1 ≤ getRemainingTime (-1) ∧ getRemainingTime (-1) ≤ 30) := by
  decide

/-- C1 (amended): for every time `t` at or after the epoch the countdown
`30 - int(t % 30)` lies in `[1, 30]`, and it is 30 exactly when `t mod 30` is 0. -/
theorem getRemainingTime_range (t : Int) (h : 0 ≤ t) :
    1 ≤ getRemainingTime t ∧ getRemainingTime t ≤ 30 ∧
      (getRemainingTime t = 30 ↔ t % 30 = 0) := by
  unfold getRemainingTime
  rw [Int.tmod_eq_emod h (by decide)]
  omega

/-- Witness of C1 at `t = 60`. -/
theorem getRemainingTime_range_witness :
    (0 : Int) ≤ 60 ∧ 1 ≤ getRemainingTime 60 ∧ getRemainingTime 60 ≤ 30 ∧
      (getRemainingTime 60 = 30 ↔ (60 : Int) % 30 = 0) :=
  ⟨by decide, getRemainingTime_range 60 (by decide)⟩

/-- C2, as stated, fails across the epoch: the countdown is 31 at `t = -1` and 1
thirty seconds later. -/
theorem getRemainingTime_period_counterexample :
    isInt64 (-1) ∧ wrapInt64 (-1 + 30) = 29 ∧
      getRemainingTime (-1) ≠ getRemainingTime (wrapInt64 (-1 + 30)) := by
  decide

/-- C2 (amended): for every 64-bit time `t` with `t + 30` representable and `t`, `t + 30`
not on opposite sides of the epoch (`0 ≤ t` or `t + 30 ≤ 0`), the countdown at
`t + 30` equals the countdown at `t`. -/
theorem getRemainingTime_period (t : Int) (ht : isInt64 t) (hfit : t + 30 < 2 ^ 63)
    (hside : 0 ≤ t ∨ t + 30 ≤ 0) :
    getRemainingTime (wrapInt64 (t + 30)) = getRemainingTime t := by
  have hw : wrapInt64 (t + 30) = t + 30 := by
    unfold isInt64 at ht
    unfold wrapInt64
    omega
  rw [hw]
  unfold getRemainingTime
  rcases hside with h | h
  · rw [Int.tmod_eq_emod h (by decide), Int.tmod_eq_emod (by omega) (by decide)]
    omega
  · have hcases : t + 30 < 0 ∨ t + 30 = 0 := by omega
    rcases hcases with h1 | h1
    · rw [tmod_of_neg t 30 (by omega) (by decide), tmod_of_neg (t + 30) 30 h1 (by decide)]
      omega
    · rw [tmod_of_neg t 30 (by omega) (by decide), h1]
      have : t = -30 := by omega
      subst this
      decide

/-- Witness of C2 at `t = 45`. -/
theorem getRemainingTime_period_witness :
    isInt64 45 ∧ (45 : Int) + 30 < 2 ^ 63 ∧ ((0 : Int) ≤ 45 ∨ (45 : Int) + 30 ≤ 0) ∧
      getRemainingTime (wrapInt64 (45 + 30)) = getRemainingTime 45 :=
  ⟨by decide, by decide, Or.inl (by decide),
    getRemainingTime_period 45 (by decide) (by decide) (Or.inl (by decide))⟩

/-! ## Code cell -/

/-- C3: a code of length 6 is displayed as 7 bytes, its first three, one space (at
index 3, and erasing it gives the code back) and its last three; a code of any
other length is displayed unmodified; `"123456"` becomes `"123 456"` and `"ERROR"`
stays `"ERROR"`. -/
theorem spaceCode_spec (c : GoString) :
    (c.length = 6 →
      (spaceCode c).length = 7 ∧
      spaceCode c = c.take 3 ++ utf8 " " ++ (c.drop 3).take 3 ∧
      (spaceCode c)[3]? = some 32 ∧
      (spaceCode c).eraseIdx 3 = c) ∧
    (c.length ≠ 6 → spaceCode c = c) ∧
    spaceCode (utf8 "123456") = utf8 "123 456" ∧
    spaceCode (utf8 "ERROR") = utf8 "ERROR" := by
  refine ⟨?_, ?_, by decide, by decide⟩
  · intro h
    match c, h with
    | [a, b, c, d, e, f], _ => simp [spaceCode, utf8, utf8EncodeRune]
  · intro h
    simp [spaceCode, h]

/-! ## Column widths -/

/-- Every value of a column is at most the longest one. -/
theorem le_longest (f : Account → Nat) (accounts : List Account) (acc : Account)
    (h : acc ∈ accounts) : f acc ≤ longest f accounts := by
  induction accounts with
  | nil => simp at h
  | cons a rest ih =>
    simp only [longest, List.map_cons, List.foldr_cons]
    rcases List.mem_cons.mp h with h1 | h1
    · subst h1
      exact Nat.le_max_left _ _
    · exact Nat.le_trans (ih h1) (Nat.le_max_right _ _)

/-- The width loop computes running maxima, from any start with `idLen ≥ 2`. -/
theorem foldl_widthStep (accounts : List Account) (w : Widths) (hw : 2 ≤ w.idLen) :
    accounts.foldl widthStep w =
      { idLen := max w.idLen (longest (fun a => (sprintfD a.ID).length) accounts + 2)
        maxNameLen := max w.maxNameLen (longest (fun a => a.Name.length) accounts)
        maxUserLen := max w.maxUserLen (longest (fun a => a.Username.length) accounts)
        maxSiteLen := max w.maxSiteLen (longest (fun a => a.Site.length) accounts) } := by
  induction accounts generalizing w with
  | nil =>
    cases w
    simp only [List.foldl_nil, longest, List.map_nil, List.foldr_nil, Widths.mk.injEq]
    simp only at hw
    omega
  | cons a rest ih =>
    have hstep : 2 ≤ (widthStep w a).idLen := by
      simp only [widthStep]
      split <;> omega
    rw [List.foldl_cons, ih (widthStep w a) hstep]
    simp only [longest, List.map_cons, List.foldr_cons, widthStep, Widths.mk.injEq]
    refine ⟨?_, ?_, ?_, ?_⟩ <;> split <;> omega

/-- Closed form of the column widths of `drawTable`. -/
theorem columnWidths_eq (accounts : List Account) :
    columnWidths accounts =
      { idLen := max 4 (longest (fun a => (sprintfD a.ID).length) accounts + 2) + 2
        maxNameLen := max 6 (longest (fun a => a.Name.length) accounts) + 2
        maxUserLen := max 10 (longest (fun a => a.Username.length) accounts) + 2
        maxSiteLen := max 6 (longest (fun a => a.Site.length) accounts) + 2 } := by
  unfold columnWidths
  rw [foldl_widthStep accounts initialWidths (by decide)]
  rfl

/-- Lower bounds of the column widths: the fixed minimums, and every value plus 2. -/
theorem columnWidths_ge (accounts : List Account) :
    4 ≤ (columnWidths accounts).idLen ∧
    6 ≤ (columnWidths accounts).maxNameLen ∧
    10 ≤ (columnWidths accounts).maxUserLen ∧
    6 ≤ (columnWidths accounts).maxSiteLen ∧
    ∀ acc ∈ accounts,
      (sprintfD acc.ID).length + 2 ≤ (columnWidths accounts).idLen ∧
      acc.Name.length + 2 ≤ (columnWidths accounts).maxNameLen ∧
      acc.Username.length + 2 ≤ (columnWidths accounts).maxUserLen ∧
      acc.Site.length + 2 ≤ (columnWidths accounts).maxSiteLen := by
  rw [columnWidths_eq]
  dsimp only
  refine ⟨by omega, by omega, by omega, by omega, ?_⟩
  intro acc hacc
  have h1 := le_longest (fun a => (sprintfD a.ID).length) accounts acc hacc
  have h2 := le_longest (fun a => a.Name.length) accounts acc hacc
  have h3 := le_longest (fun a => a.Username.length) accounts acc hacc
  have h4 := le_longest (fun a => a.Site.length) accounts acc hacc
  simp only at h1 h2 h3 h4
  refine ⟨by omega, by omega, by omega, by omega⟩

/-- C5: for every account list, the empty one included, each of the four widths is at
least the fixed minimum of its column (ID 4, Name 6, Username 10, Site 6) and at
least `len(v) + 2` for the value `v` of every account in that column (the decimal
text of the ID, the bytes of a string). -/
theorem columnWidths_lower_bounds (accounts : List Account) :
    (4 ≤ (columnWidths accounts).idLen ∧
      6 ≤ (columnWidths accounts).maxNameLen ∧
      10 ≤ (columnWidths accounts).maxUserLen ∧
      6 ≤ (columnWidths accounts).maxSiteLen) ∧
    ∀ acc ∈ accounts,
      (sprintfD acc.ID).length + 2 ≤ (columnWidths accounts).idLen ∧
      acc.Name.length + 2 ≤ (columnWidths accounts).maxNameLen ∧
      acc.Username.length + 2 ≤ (columnWidths accounts).maxUserLen ∧
      acc.Site.length + 2 ≤ (columnWidths accounts).maxSiteLen := by
  obtain ⟨h1, h2, h3, h4, hall⟩ := columnWidths_ge accounts
  exact ⟨⟨h1, h2, h3, h4⟩, hall⟩

/-- C6, as stated, fails for the ID column: one account with ID 100 (three digits)
gives the width 7, not `max 4 3 + 2 = 6`. -/
theorem columnWidths_formula_counterexample :
    (columnWidths [{ ID := 100, Name := [], Username := [], Site := [], Secret := [] }]).idLen = 7 ∧
    (columnWidths [{ ID := 100, Name := [], Username := [], Site := [], Secret := [] }]).idLen ≠
      max 4 (longest (fun a => (sprintfD a.ID).length)
        [{ ID := 100, Name := [], Username := [], Site := [], Secret := [] }]) + 2 := by
  decide

/-- C6 (amended): for every account list the widths of Name, Username and Site are
`max(minimum, longest value) + 2` with the minimums 6, 10 and 6; the width of ID is
`max(4, longest decimal ID + 2) + 2`. -/
theorem columnWidths_formula (accounts : List Account) :
    (columnWidths accounts).maxNameLen = max 6 (longest (fun a => a.Name.length) accounts) + 2 ∧
    (columnWidths accounts).maxUserLen = max 10 (longest (fun a => a.Username.length) accounts) + 2 ∧
    (columnWidths accounts).maxSiteLen = max 6 (longest (fun a => a.Site.length) accounts) + 2 ∧
    (columnWidths accounts).idLen =
      max 4 (longest (fun a => (sprintfD a.ID).length) accounts + 2) + 2 := by
  rw [columnWidths_eq]
  exact ⟨rfl, rfl, rfl, rfl⟩

/-! ## Width of the printed lines -/

theorem startsClean_bar (x : GoString) : startsClean (utf8 "│ " ++ x) :=
  startsClean_cons 226 _ (Or.inr (by decide))

theorem startsClean_end : startsClean (utf8 " ║") :=
  startsClean_cons 32 _ (Or.inl (by decide))

/-- A line of six cells between the separators has the runes of its cells and 14
more: seven separators of two runes each. -/
theorem runeCount_line (x1 x2 x3 x4 x5 x6 : GoString) (n1 n2 n3 n4 n5 n6 : Nat)
    (h1 : ∀ b, startsClean b → runeCount (x1 ++ b) = n1 + runeCount b)
    (h2 : ∀ b, startsClean b → runeCount (x2 ++ b) = n2 + runeCount b)
    (h3 : ∀ b, startsClean b → runeCount (x3 ++ b) = n3 + runeCount b)
    (h4 : ∀ b, startsClean b → runeCount (x4 ++ b) = n4 + runeCount b)
    (h5 : ∀ b, startsClean b → runeCount (x5 ++ b) = n5 + runeCount b)
    (h6 : ∀ b, startsClean b → runeCount (x6 ++ b) = n6 + runeCount b) :
    runeCount ([utf8 "║ ", x1, utf8 "│ ", x2, utf8 "│ ", x3, utf8 "│ ", x4, utf8 "│ ", x5,
      utf8 "│ ", x6, utf8 " ║"].flatten) = n1 + n2 + n3 + n4 + n5 + n6 + 14 := by
  simp only [List.flatten_cons, List.flatten_nil, List.append_nil]
  rw [runeCount_left_append, h1 _ (startsClean_bar _), runeCount_bar_append,
    h2 _ (startsClean_bar _), runeCount_bar_append, h3 _ (startsClean_bar _),
    runeCount_bar_append, h4 _ (startsClean_bar _), runeCount_bar_append,
    h5 _ (startsClean_bar _), runeCount_bar_append, h6 _ startsClean_end, runeCount_end]
  omega

/-- A padded cell that is followed by a clean text. -/
theorem padRight_cell (wid : Nat) (s : GoString) (hw : wid ≤ 1000000) (h : runeCount s ≤ wid)
    (b : GoString) (hb : startsClean b) :
    runeCount (padRight wid s ++ b) = wid + runeCount b := by
  rw [runeCount_padRight_append wid s b hw hb, Nat.max_eq_left h]

/-- A cell printed with `" %-*s"`, followed by a clean text. -/
theorem spaced_cell (wid : Nat) (s : GoString) (hw : wid ≤ 1000000) (h : runeCount s ≤ wid)
    (b : GoString) (hb : startsClean b) :
    runeCount ((utf8 " " ++ padRight wid s) ++ b) = (wid + 1) + runeCount b := by
  rw [List.append_assoc, runeCount_ascii_append (utf8 " ") _ (by decide),
    padRight_cell wid s hw h b hb]
  have : (utf8 " ").length = 1 := by decide
  omega

/-- The three branches of the time cell print the same text. -/
theorem timeCell_eq (remaining : Int) :
    timeCell remaining = utf8 " " ++ padRight (timeLen - 1) (sprintfD remaining ++ utf8 "s") := by
  unfold timeCell
  split_ifs <;> rfl

/-- For a countdown in `[1, 30]` the text `"<n>s"` has at most 3 runes. -/
theorem runeCount_timeStr (remaining : Int) (h1 : 1 ≤ remaining) (h2 : remaining ≤ 30) :
    runeCount (sprintfD remaining ++ utf8 "s") ≤ 3 := by
  interval_cases remaining <;> decide

/-- Number of runes of the header line, when the labels fit their columns and the
widths are within the limit of `fmt`. -/
theorem runeCount_headerRow (w : Widths) (h1 : 2 ≤ w.idLen) (h2 : 4 ≤ w.maxNameLen)
    (h3 : 8 ≤ w.maxUserLen) (h4 : 4 ≤ w.maxSiteLen)
    (l1 : w.idLen ≤ 1000000) (l2 : w.maxNameLen ≤ 1000000) (l3 : w.maxUserLen ≤ 1000000)
    (l4 : w.maxSiteLen ≤ 1000000) :
    runeCount (headerRow w) =
      w.idLen + w.maxNameLen + w.maxUserLen + w.maxSiteLen + codeLen + timeLen + 14 := by
  unfold headerRow headerPieces
  exact runeCount_line _ _ _ _ _ _ _ _ _ _ _ _
    (padRight_cell _ _ l1 (by rw [show runeCount (utf8 "ID") = 2 by decide]; exact h1))
    (padRight_cell _ _ l2 (by rw [show runeCount (utf8 "Name") = 4 by decide]; exact h2))
    (padRight_cell _ _ l3 (by rw [show runeCount (utf8 "Username") = 8 by decide]; exact h3))
    (padRight_cell _ _ l4 (by rw [show runeCount (utf8 "Site") = 4 by decide]; exact h4))
    (padRight_cell _ _ (by decide) (by decide))
    (padRight_cell _ _ (by decide) (by decide))

/-- Number of runes of a border line. -/
theorem runeCount_borderLine (w : Widths) : runeCount (borderLine w) = totalWidth w := by
  unfold borderLine stringsRepeat
  generalize totalWidth w = n
  induction n with
  | zero => rfl
  | succ n ih =>
    rw [List.replicate_succ, List.flatten_cons]
    have hc : ∀ x : GoString, runeCount (utf8 "═" ++ x) = 1 + runeCount x := by
      intro x
      simp [utf8, utf8EncodeRune, runeCount, runeCountAux, runeSize, leadSize, acceptLo,
        acceptHi, isCont]
    rw [hc, ih]
    omega

/-- Number of runes of a data line whose values fit their columns, the widths being
within the limit of `fmt`. -/
theorem runeCount_dataRow (w : Widths) (remaining : Int) (acc : Account) (code : GoString)
    (l1 : w.idLen ≤ 1000000) (l2 : w.maxNameLen ≤ 1000000) (l3 : w.maxUserLen ≤ 1000000)
    (l4 : w.maxSiteLen ≤ 1000000)
    (h1 : runeCount (sprintfD acc.ID) ≤ w.idLen) (h2 : runeCount acc.Name ≤ w.maxNameLen)
    (h3 : runeCount acc.Username ≤ w.maxUserLen) (h4 : runeCount acc.Site ≤ w.maxSiteLen)
    (h5 : runeCount code ≤ 9) (h6 : runeCount (sprintfD remaining ++ utf8 "s") ≤ 7) :
    runeCount (dataRow w remaining acc code) =
      w.idLen + w.maxNameLen + w.maxUserLen + w.maxSiteLen + codeLen + timeLen + 14 := by
  unfold dataRow rowPieces
  rw [timeCell_eq]
  exact runeCount_line _ _ _ _ _ _ _ _ _ _ _ _
    (padRight_cell _ _ l1 h1) (padRight_cell _ _ l2 h2) (padRight_cell _ _ l3 h3)
    (padRight_cell _ _ l4 h4)
    (spaced_cell _ _ (by decide) h5) (spaced_cell _ _ (by decide) h6)

/-- The decimal digits of a number below `10 ^ k`. -/
theorem length_toDigitsCore_le (fuel n : Nat) (ds : List Char) (k : Nat) (hk : 1 ≤ k)
    (hn : n < 10 ^ k) : (Nat.toDigitsCore 10 fuel n ds).length ≤ ds.length + k := by
  induction fuel generalizing n ds k with
  | zero =>
    simp only [Nat.toDigitsCore]
    omega
  | succ fuel ih =>
    unfold Nat.toDigitsCore
    dsimp only
    split
    · simp only [List.length_cons]
      omega
    · rename_i hne
      have hk2 : 2 ≤ k := by
        by_contra hlt
        have hk1 : k = 1 := by omega
        subst hk1
        apply hne
        simp only [pow_one] at hn
        omega
      have hpow : 10 ^ k = 10 ^ (k - 1) * 10 := by
        rw [← pow_succ]
        congr 1
        omega
      have hdiv : n / 10 < 10 ^ (k - 1) := by
        rw [Nat.div_lt_iff_lt_mul (by decide)]
        omega
      have := ih (n / 10) (Nat.digitChar (n % 10) :: ds) (k - 1) (by omega) hdiv
      simp only [List.length_cons] at this
      omega

/-- The decimal text of a 64-bit integer has at most 20 bytes. -/
theorem length_sprintfD_le (n : Int) (hn : isInt64 n) : (sprintfD n).length ≤ 20 := by
  unfold isInt64 at hn
  have hd : ((Nat.toDigits 10 n.natAbs).map Char.toNat).length ≤ 19 := by
    rw [List.length_map]
    have := length_toDigitsCore_le (n.natAbs + 1) n.natAbs [] 19 (by decide) (by omega)
    simpa [Nat.toDigits] using this
  unfold sprintfD
  split
  · simp only [List.length_cons]
    omega
  · omega

/-- An upper bound of all values of a column bounds the longest one. -/
theorem longest_le (f : Account → Nat) (accounts : List Account) (bound : Nat)
    (h : ∀ acc ∈ accounts, f acc ≤ bound) : longest f accounts ≤ bound := by
  induction accounts with
  | nil => simp [longest]
  | cons a rest ih =>
    simp only [longest, List.map_cons, List.foldr_cons]
    have h1 := h a (by simp)
    have h2 := ih (fun acc hacc => h acc (by simp [hacc]))
    simp only [longest] at h2
    omega

/-- Accounts within the limit give column widths within the limit of `fmt`. -/
theorem columnWidths_le (accounts : List Account) (hfit : ∀ acc ∈ accounts, withinWidthLimit acc) :
    (columnWidths accounts).idLen ≤ 1000000 ∧
    (columnWidths accounts).maxNameLen ≤ 1000000 ∧
    (columnWidths accounts).maxUserLen ≤ 1000000 ∧
    (columnWidths accounts).maxSiteLen ≤ 1000000 := by
  have h1 := longest_le (fun a => (sprintfD a.ID).length) accounts 20
    (fun acc hacc => length_sprintfD_le _ (hfit acc hacc).1)
  have h2 := longest_le (fun a => a.Name.length) accounts 999998
    (fun acc hacc => Nat.le_of_lt_succ (hfit acc hacc).2.1)
  have h3 := longest_le (fun a => a.Username.length) accounts 999998
    (fun acc hacc => Nat.le_of_lt_succ (hfit acc hacc).2.2.1)
  have h4 := longest_le (fun a => a.Site.length) accounts 999998
    (fun acc hacc => Nat.le_of_lt_succ (hfit acc hacc).2.2.2)
  rw [columnWidths_eq]
  dsimp only
  refine ⟨by omega, by omega, by omega, by omega⟩

/-- For every account list within the limit of `fmt` the header line is 7 runes longer
than the border lines. -/
theorem header_exceeds_border (accounts : List Account)
    (hfit : ∀ acc ∈ accounts, withinWidthLimit acc) :
    runeCount (headerRow (columnWidths accounts)) =
      runeCount (borderLine (columnWidths accounts)) + 7 := by
  obtain ⟨h1, h2, h3, h4, _⟩ := columnWidths_ge accounts
  obtain ⟨l1, l2, l3, l4⟩ := columnWidths_le accounts hfit
  rw [runeCount_headerRow _ (by omega) (by omega) (by omega) (by omega) l1 l2 l3 l4,
    runeCount_borderLine]
  unfold totalWidth
  omega

/-- C9 fails on the code: for the one account of the end-to-end example the three
border lines have 63 runes (`totalWidth`) and the header line has 70. -/
theorem border_shorter_than_header :
    totalWidth (columnWidths [githubAccount]) = 63 ∧
    runeCount (drawTable [githubAccount] 59 (fun _ => 59)).top = 63 ∧
    runeCount (drawTable [githubAccount] 59 (fun _ => 59)).separator = 63 ∧
    runeCount (drawTable [githubAccount] 59 (fun _ => 59)).bottom = 63 ∧
    runeCount (drawTable [githubAccount] 59 (fun _ => 59)).header = 70 := by
  have hw : columnWidths [githubAccount] =
      { idLen := 6, maxNameLen := 8, maxUserLen := 12, maxSiteLen := 12 } := by
    decide
  simp only [drawTable, hw, runeCount_borderLine]
  refine ⟨by decide, by decide, by decide, by decide, ?_⟩
  rw [runeCount_headerRow _ (by decide) (by decide) (by decide) (by decide)
    (by decide) (by decide) (by decide) (by decide)]
  decide

/-- The long name has 999,999 bytes. -/
theorem length_longName : longName.length = 999999 := by
  unfold longName
  exact List.length_replicate _ _

/-- The long name is ASCII: it has as many runes as bytes. -/
theorem runeCount_longName : runeCount longName = 999999 := by
  have ha : ∀ x ∈ longName, x < 128 := by
    intro x hx
    unfold longName at hx
    rw [List.eq_of_mem_replicate hx]
    decide
  rw [runeCount_ascii _ ha, length_longName]

/-- The column widths of a single account. -/
theorem columnWidths_singleton (acc : Account) :
    columnWidths [acc] =
      { idLen := max 4 ((sprintfD acc.ID).length + 2) + 2
        maxNameLen := max 6 acc.Name.length + 2
        maxUserLen := max 10 acc.Username.length + 2
        maxSiteLen := max 6 acc.Site.length + 2 } := by
  rw [columnWidths_eq]
  simp [longest]

/-- The column widths of the account with the long name: the Name column is one above
the limit of `fmt`. -/
theorem columnWidths_longName :
    columnWidths [longNameAccount] =
      { idLen := 6, maxNameLen := 1000001, maxUserLen := 12, maxSiteLen := 12 } := by
  have hname : longNameAccount.Name.length = 999999 := length_longName
  have hi : (sprintfD longNameAccount.ID).length = 1 := by decide
  have hu : longNameAccount.Username.length = 5 := by decide
  have hs : longNameAccount.Site.length = 10 := by decide
  rw [columnWidths_singleton, hname, hi, hu, hs]
  decide

/-- C10, as stated, fails for a long value: with a name of 999,999 bytes the Name
column is 1,000,001 wide, `fmt` prints `%!(BADWIDTH)` and no padding, and the header
line has 78 runes while the data line has 1,000,073. -/
theorem dataRow_aligned_counterexample :
    longNameAccount ∈ [longNameAccount] ∧
    runeCount (utf8 "123 456") ≤ 9 ∧
    (1 : Int) ≤ 7 ∧ (7 : Int) ≤ 30 ∧
    runeCount (headerRow (columnWidths [longNameAccount])) = 78 ∧
    runeCount (dataRow (columnWidths [longNameAccount]) 7 longNameAccount (utf8 "123 456")) =
      1000073 ∧
    runeCount (dataRow (columnWidths [longNameAccount]) 7 longNameAccount (utf8 "123 456")) ≠
      runeCount (headerRow (columnWidths [longNameAccount])) := by
  have hhead : runeCount (headerRow (columnWidths [longNameAccount])) = 78 := by
    rw [columnWidths_longName]
    unfold headerRow headerPieces
    dsimp only
    rw [runeCount_line _ _ _ _ _ _ _ _ _ _ _ _
      (padRight_cell 6 (utf8 "ID") (by decide) (by decide))
      (runeCount_badWidth_append 1000001 (utf8 "Name") · (by decide))
      (padRight_cell 12 (utf8 "Username") (by decide) (by decide))
      (padRight_cell 12 (utf8 "Site") (by decide) (by decide))
      (padRight_cell codeLen (utf8 "Code") (by decide) (by decide))
      (padRight_cell timeLen (utf8 "Time") (by decide) (by decide))]
    decide
  have hrow : runeCount (dataRow (columnWidths [longNameAccount]) 7 longNameAccount
      (utf8 "123 456")) = 1000073 := by
    rw [columnWidths_longName]
    unfold dataRow rowPieces
    dsimp only
    rw [timeCell_eq, runeCount_line _ _ _ _ _ _ _ _ _ _ _ _
      (padRight_cell 6 (sprintfD longNameAccount.ID) (by decide) (by decide))
      (runeCount_badWidth_append 1000001 longNameAccount.Name · (by decide))
      (padRight_cell 12 longNameAccount.Username (by decide) (by decide))
      (padRight_cell 12 longNameAccount.Site (by decide) (by decide))
      (spaced_cell (codeLen - 1) (utf8 "123 456") (by decide) (by decide))
      (spaced_cell (timeLen - 1) (sprintfD 7 ++ utf8 "s") (by decide) (by decide)),
      show longNameAccount.Name = longName from rfl, runeCount_longName]
    decide
  refine ⟨List.mem_singleton.mpr rfl, by decide, by decide, by decide, hhead, hrow, ?_⟩
  rw [hhead, hrow]
  decide

/-- C10 (amended): for every account list whose accounts are within the limit of `fmt`
(64-bit IDs; Name, Username and Site of fewer than 999,999 bytes), every account in
it, every displayed code of at most 9 runes and every countdown in `[1, 30]`, the
data line has as many runes as the header line, and every piece the row prints has
exactly the runes of its column: 2 for a separator, the column width for a cell. -/
theorem dataRow_aligned (accounts : List Account)
    (hfit : ∀ a ∈ accounts, withinWidthLimit a)
    (acc : Account) (hacc : acc ∈ accounts)
    (code : GoString) (hcode : runeCount code ≤ 9)
    (remaining : Int) (hlo : 1 ≤ remaining) (hhi : remaining ≤ 30) :
    runeCount (dataRow (columnWidths accounts) remaining acc code) =
      runeCount (headerRow (columnWidths accounts)) ∧
    (rowPieces (columnWidths accounts) remaining acc code).map runeCount =
      [2, (columnWidths accounts).idLen, 2, (columnWidths accounts).maxNameLen,
       2, (columnWidths accounts).maxUserLen, 2, (columnWidths accounts).maxSiteLen,
       2, codeLen, 2, timeLen, 2] ∧
    (headerPieces (columnWidths accounts)).map runeCount =
      (rowPieces (columnWidths accounts) remaining acc code).map runeCount := by
  obtain ⟨h1, h2, h3, h4, hall⟩ := columnWidths_ge accounts
  obtain ⟨l1, l2, l3, l4⟩ := columnWidths_le accounts hfit
  obtain ⟨a1, a2, a3, a4⟩ := hall acc hacc
  generalize columnWidths accounts = w at h1 h2 h3 h4 a1 a2 a3 a4 l1 l2 l3 l4
  have b1 := runeCount_le_length (sprintfD acc.ID)
  have b2 := runeCount_le_length acc.Name
  have b3 := runeCount_le_length acc.Username
  have b4 := runeCount_le_length acc.Site
  have b6 := runeCount_timeStr remaining hlo hhi
  have hsep1 : runeCount (utf8 "║ ") = 2 := by decide
  have hsep2 : runeCount (utf8 "│ ") = 2 := by decide
  have hsep3 : runeCount (utf8 " ║") = 2 := by decide
  have hrow : (rowPieces w remaining acc code).map runeCount =
      [2, w.idLen, 2, w.maxNameLen, 2, w.maxUserLen, 2, w.maxSiteLen,
       2, codeLen, 2, timeLen, 2] := by
    have c5 := spaced_cell (codeLen - 1) code (by decide) hcode [] startsClean_nil
    have c6 := spaced_cell (timeLen - 1) (sprintfD remaining ++ utf8 "s") (by decide)
      (by
        have : timeLen - 1 = 7 := rfl
        omega) [] startsClean_nil
    rw [List.append_nil] at c5 c6
    simp only [rowPieces, List.map_cons, List.map_nil, timeCell_eq, hsep1, hsep2, hsep3,
      runeCount_padRight _ _ l1, runeCount_padRight _ _ l2, runeCount_padRight _ _ l3,
      runeCount_padRight _ _ l4, c5, c6]
    have e0 : runeCount ([] : GoString) = 0 := rfl
    have e5 : codeLen - 1 + 1 = codeLen := rfl
    have e6 : timeLen - 1 + 1 = timeLen := rfl
    rw [e0, e5, e6, Nat.max_eq_left (by omega : runeCount (sprintfD acc.ID) ≤ w.idLen),
      Nat.max_eq_left (by omega : runeCount acc.Name ≤ w.maxNameLen),
      Nat.max_eq_left (by omega : runeCount acc.Username ≤ w.maxUserLen),
      Nat.max_eq_left (by omega : runeCount acc.Site ≤ w.maxSiteLen)]
  have hhead : (headerPieces w).map runeCount =
      [2, w.idLen, 2, w.maxNameLen, 2, w.maxUserLen, 2, w.maxSiteLen,
       2, codeLen, 2, timeLen, 2] := by
    have k5 : codeLen ≤ 1000000 := by decide
    have k6 : timeLen ≤ 1000000 := by decide
    simp only [headerPieces, List.map_cons, List.map_nil, hsep1, hsep2, hsep3,
      runeCount_padRight _ _ l1, runeCount_padRight _ _ l2, runeCount_padRight _ _ l3,
      runeCount_padRight _ _ l4, runeCount_padRight _ _ k5, runeCount_padRight _ _ k6]
    rw [show runeCount (utf8 "ID") = 2 by decide, show runeCount (utf8 "Name") = 4 by decide,
      show runeCount (utf8 "Username") = 8 by decide, show runeCount (utf8 "Site") = 4 by decide,
      show runeCount (utf8 "Code") = 4 by decide, show runeCount (utf8 "Time") = 4 by decide,
      Nat.max_eq_left (by omega : 2 ≤ w.idLen), Nat.max_eq_left (by omega : 4 ≤ w.maxNameLen),
      Nat.max_eq_left (by omega : 8 ≤ w.maxUserLen), Nat.max_eq_left (by omega : 4 ≤ w.maxSiteLen)]
    rfl
  refine ⟨?_, hrow, ?_⟩
  · rw [runeCount_dataRow w remaining acc code l1 l2 l3 l4 (by omega) (by omega) (by omega)
        (by omega) hcode (by omega),
      runeCount_headerRow w (by omega) (by omega) (by omega) (by omega) l1 l2 l3 l4]
  · rw [hrow, hhead]

/-- Witness of C10: an account with a non-ASCII name and a negative ID, the code
`"123 456"`, 7 seconds left. -/
theorem dataRow_aligned_witness :
    (∀ a ∈ [githubAccount, oddAccount], withinWidthLimit a) ∧
    oddAccount ∈ [githubAccount, oddAccount] ∧
    runeCount (utf8 "123 456") ≤ 9 ∧
    (1 : Int) ≤ 7 ∧ (7 : Int) ≤ 30 ∧
    runeCount (dataRow (columnWidths [githubAccount, oddAccount]) 7 oddAccount (utf8 "123 456")) =
      runeCount (headerRow (columnWidths [githubAccount, oddAccount])) :=
  ⟨by decide, by decide, by decide, by decide, by decide,
    (dataRow_aligned [githubAccount, oddAccount] (by decide) oddAccount (by decide)
      (utf8 "123 456") (by decide) 7 (by decide) (by decide)).1⟩

/-! ## Rows and their codes -/

/-- The row loop prints one line per account. -/
theorem length_drawRows (w : Widths) (remaining : Int) (nows : Nat → Int) (k : Nat)
    (accounts : List Account) : (drawRows w remaining nows k accounts).length = accounts.length := by
  induction accounts generalizing k with
  | nil => rfl
  | cons acc rest ih => simp [drawRows, ih]

/-- Line `i` of the row loop is the line of account `i`, with the code of its own
secret at the clock reading of its own iteration. -/
theorem getElem?_drawRows (w : Widths) (remaining : Int) (nows : Nat → Int) (k : Nat)
    (accounts : List Account) (i : Nat) :
    (drawRows w remaining nows k accounts)[i]? =
      (accounts[i]?).map (fun acc =>
        dataRow w remaining acc (displayCode (generateTOTP acc.Secret (nows (k + i))))) := by
  induction accounts generalizing k i with
  | nil => simp [drawRows]
  | cons acc rest ih =>
    cases i with
    | zero => simp [drawRows]
    | succ i =>
      simp only [drawRows, List.getElem?_cons_succ]
      rw [ih (k + 1) i]
      have : k + 1 + i = k + (i + 1) := by omega
      rw [this]

/-- A code the generator returns has six bytes. -/
theorem length_generateTOTP (secret : GoString) (now : Int) (code : GoString)
    (h : generateTOTP secret now = .ok code) : code.length = 6 := by
  unfold generateTOTP totpGenerateCode at h
  cases hd : base32Decode secret with
  | none => simp [hd] at h
  | some key =>
    simp only [hd, Except.ok.injEq] at h
    subst h
    rfl

/-- C4: `drawTable` prints one line per account, in list order, for every account
list and all clock readings; line `i` is the line of account `i` with a code cell
that depends on its own secret and clock reading only: the literal `"ERROR"` when
`generateTOTP` fails on that secret, and otherwise the six-byte code it returns,
split as `XXX XXX`. -/
theorem drawTable_rows (accounts : List Account) (now : Int) (nows : Nat → Int) :
    (drawTable accounts now nows).rows.length = accounts.length ∧
    ∀ (i : Nat) (acc : Account), accounts[i]? = some acc →
      ∃ cell : GoString,
        (drawTable accounts now nows).rows[i]? =
          some (dataRow (columnWidths accounts) (getRemainingTime now) acc cell) ∧
        match generateTOTP acc.Secret (nows i) with
        | .error _ => cell = utf8 "ERROR"
        | .ok code => code.length = 6 ∧ cell = code.take 3 ++ utf8 " " ++ code.drop 3 := by
  refine ⟨length_drawRows _ _ _ _ _, ?_⟩
  intro i acc hacc
  refine ⟨displayCode (generateTOTP acc.Secret (nows i)), ?_, ?_⟩
  · simp only [drawTable]
    rw [getElem?_drawRows, hacc]
    simp
  · cases hgen : generateTOTP acc.Secret (nows i) with
    | error e =>
      simp only [displayCode]
      decide
    | ok code =>
      have hlen := length_generateTOTP _ _ _ hgen
      simp only [displayCode, spaceCode, hlen, if_true]
      exact ⟨trivial, trivial⟩

/-! ## The generator -/

/-- C7: for every secret that decodes as base32 and all times `t1`, `t2` of the same
30-second window (`floor(t1 / 30) = floor(t2 / 30)`), `generateTOTP` succeeds at both
times and returns the same code. -/
theorem generateTOTP_same_window (secret : GoString) (t1 t2 : Int)
    (hs : validSecret secret) (hw : Int.fdiv t1 30 = Int.fdiv t2 30) :
    ∃ code : GoString,
      generateTOTP secret t1 = .ok code ∧ generateTOTP secret t2 = .ok code := by
  unfold validSecret at hs
  obtain ⟨key, hkey⟩ := Option.isSome_iff_exists.mp hs
  refine ⟨hotp key (timeCounter t1), ?_, ?_⟩
  · simp [generateTOTP, totpGenerateCode, hkey]
  · simp [generateTOTP, totpGenerateCode, hkey, timeCounter, hw]

/-- Witness of C7: the secret of the end-to-end example at the seconds 31 and 59. -/
theorem generateTOTP_same_window_witness :
    validSecret (utf8 "JBSWY3DPEHPK3PXP") ∧ Int.fdiv 31 30 = Int.fdiv 59 30 ∧
    ∃ code : GoString,
      generateTOTP (utf8 "JBSWY3DPEHPK3PXP") 31 = .ok code ∧
      generateTOTP (utf8 "JBSWY3DPEHPK3PXP") 59 = .ok code :=
  ⟨by decide, by decide,
    generateTOTP_same_window (utf8 "JBSWY3DPEHPK3PXP") 31 59 (by decide) (by decide)⟩

set_option maxRecDepth 1000000 in
/-- The generator on a test vector of RFC 6238: the key `12345678901234567890` at the
time 59 gives `94287082`, of which the last six digits are displayed. -/
theorem generateTOTP_rfc6238 :
    generateTOTP (utf8 "GEZDGNBVGY3TQOJQGEZDGNBVGY3TQOJQ") 59 = .ok (utf8 "287082") := by
  rfl

/-! ## Start-up gating -/

/-- C8: when `loadConfig` fails, or the configuration it returns has no account,
`main` ends with exit status 1 and never calls `drawTable`; otherwise, up to any tick,
`main` only calls `drawTable`, once at the start and once per tick, each time with
the loaded account list, which is not empty. -/
theorem main_gating {ε : Type} (loaded : Except ε Config) (ticks : Nat) :
    (∀ err, loaded = .error err → main loaded ticks = [Event.exit 1]) ∧
    (∀ config, loaded = .ok config → config.Accounts = [] →
      main loaded ticks = [Event.exit 1]) ∧
    (∀ accounts, Event.draw accounts ∈ main loaded ticks →
      accounts ≠ [] ∧ loaded = .ok { Accounts := accounts }) ∧
    (∀ config, loaded = .ok config → config.Accounts ≠ [] →
      main loaded ticks = List.replicate (ticks + 1) (Event.draw config.Accounts)) := by
  cases loaded with
  | error e => simp [main]
  | ok config =>
    obtain ⟨accounts⟩ := config
    by_cases h : accounts = []
    · subst h
      simp [main]
    · have hlen : accounts.length ≠ 0 := by
        simpa [List.length_eq_zero] using h
      refine ⟨?_, ?_, ?_, ?_⟩
      · intro err herr
        cases herr
      · intro config hc hnil
        simp only [Except.ok.injEq] at hc
        subst hc
        exact absurd hnil h
      · intro accs hmem
        simp only [main, hlen, if_false, List.mem_cons, List.mem_replicate, Event.draw.injEq] at hmem
        have haccs : accs = accounts := by
          rcases hmem with h1 | ⟨_, h1⟩
          · exact h1
          · exact h1
        subst haccs
        exact ⟨h, rfl⟩
      · intro config hc _
        simp only [Except.ok.injEq] at hc
        subst hc
        simp [main, hlen, List.replicate_succ]

end GoAuth
